import Mathlib

/-!
Verification of the asynchronous request-batching server
(`SimpleBatchingServer` in `async_exercises/test_async_server.py`).

The Python program runs under single-threaded cooperative concurrency
(asyncio): control is exchanged only at `await` points, so every maximal
run of code between suspension points executes atomically.  The queue lock
is never held across a suspension point, hence each lock-protected region
is a single atomic step and the lock itself can be elided from the model.
We embed the server as a labelled transition system whose atomic steps are
exactly those regions:

* `addRequestLocked` — the body of `add_request`'s `async with self.queue_lock`
  block (capacity check, request creation, append, wake/timer decision);
* `delayedProcessing` — the body of `_delayed_processing` after its
  `asyncio.sleep(1)` returns (fire of a deferred-wake timer);
* the consumer loop `process_batch` is split at its suspension points into
  `wake` (event wait returns + `clear`), `take`/`skipEmpty` (the locked
  slice-and-remove), and `finish` (completion writes after `asyncio.sleep(2)`);
* `cancel` models `processor_task.cancel()` in `main`;
* `resume idx ret` models the suspended `add_request` caller resuming from
  `await task["done_event"].wait()` and returning `task["result"]`.

Real-time delays (`asyncio.sleep(1)` in the timer, `asyncio.sleep(2)` for
processing) are abstracted to nondeterministic interleaving: a pending
timer may fire at any point after being scheduled.  The sleep durations
themselves are recorded as the constants `deferredWakeDelay` and
`processingDelay`.
-/

namespace BatchServer

/-- `MAX_QUEUE_SIZE` (line 15: `if len(self.queue) >= 3`). -/
def MAX_QUEUE_SIZE : Nat := 3

/-- `MAX_BATCH_SIZE` (line 30: `if len(self.queue) >= 2` and line 57: `self.queue[:2]`). -/
def MAX_BATCH_SIZE : Nat := 2

/-- Argument of `asyncio.sleep` in `_delayed_processing` (line 42). -/
def deferredWakeDelay : Nat := 1

/-- Argument of `asyncio.sleep` in `process_batch` (line 62). -/
def processingDelay : Nat := 2

/-- One request record, the dict built in `add_request`:
`{"id": request_id, "done_event": Event(), "time": ..., "result": None}`.
`done` is the per-request `done_event`; `result` the result slot.
(The wall-clock `"time"` field is never read by the program and is omitted.) -/
structure Req where
  rid : String
  result : Option String
  done : Bool
deriving DecidableEq

/-- The string written into a completed request's result slot
(line 66: `task["result"] = f"Processed {task['id']}"`). -/
def processedMsg (rid : String) : String := "Processed " ++ rid

/-- `completedReq r` is `r` after the consumer's completion writes
(lines 66-67: result populated, done event set). -/
def completedReq (r : Req) : Req :=
  { r with result := some (processedMsg r.rid), done := true }

/-- Program counter of the single `process_batch` consumer task.
`waiting` = suspended at `await self.needs_processing.wait()`;
`lockCheck` = event consumed and cleared, about to enter the locked
slice-and-remove region; `processing b` = holding batch `b`, suspended at
`await asyncio.sleep(2)`; `cancelled` = after `processor_task.cancel()`. -/
inductive ConsumerState where
  | waiting
  | lockCheck
  | processing (batch : List Nat)
  | cancelled
deriving DecidableEq

/-- Global state of the server and its tasks.  Requests live forever in
`reqs` (creation order; a queue entry is an index into `reqs`), mirroring
the Python dicts that remain referenced by their suspended callers after
leaving `self.queue`.  `needs_processing` is the level-triggered Event;
`timers` counts `_delayed_processing` tasks that are scheduled but have not
yet fired. -/
structure ServerState where
  reqs : List Req
  queue : List Nat
  needs_processing : Bool
  timers : Nat
  consumer : ConsumerState
deriving DecidableEq

/-- `SimpleBatchingServer.__init__` plus the freshly spawned consumer task. -/
def initState : ServerState :=
  { reqs := [], queue := [], needs_processing := false, timers := 0,
    consumer := ConsumerState.waiting }

/-- The locked body of `add_request` (lines 14-34): capacity check, request
creation and append, then the wake/timer decision.  Returns the updated
state and the new request's index, or the `"Server too busy!"` error. -/
def addRequestLocked (s : ServerState) (rid : String) :
    Except String (ServerState × Nat) :=
  if s.queue.length ≥ MAX_QUEUE_SIZE then
    Except.error "Server too busy!"
  else
    let idx := s.reqs.length
    let s' : ServerState :=
      { s with reqs := s.reqs ++ [{ rid := rid, result := none, done := false }],
               queue := s.queue ++ [idx] }
    if s'.queue.length ≥ MAX_BATCH_SIZE then
      Except.ok ({ s' with needs_processing := true }, idx)
    else if s'.queue.length = 1 then
      Except.ok ({ s' with timers := s.timers + 1 }, idx)
    else
      Except.ok (s', idx)

/-- The body of `_delayed_processing` after its sleep (lines 43-44):
`if self.queue: self.needs_processing.set()`.  One pending timer is
consumed. -/
def delayedProcessing (s : ServerState) : ServerState :=
  { s with timers := s.timers - 1,
           needs_processing :=
             if s.queue.isEmpty then s.needs_processing else true }

/-- Completion writes for one request (lines 66-67), on the request store. -/
def completeOne (reqs : List Req) (idx : Nat) : List Req :=
  match reqs[idx]? with
  | some r => reqs.set idx (completedReq r)
  | none => reqs

/-- The completion loop of `process_batch` (lines 65-67): every request of
the batch gets its result written and its done event set, in one atomic
region (no suspension point inside the loop). -/
def finishBatch (s : ServerState) (batch : List Nat) : ServerState :=
  { s with reqs := batch.foldl completeOne s.reqs,
           consumer := ConsumerState.waiting }

/-- The indices currently held by the consumer as its in-flight batch. -/
def inflight (s : ServerState) : List Nat :=
  match s.consumer with
  | ConsumerState.processing b => b
  | _ => []

/-- Labels of the atomic steps. -/
inductive Label where
  | submitOk (rid : String) (idx : Nat)
  | submitFull (rid : String)
  | timerFire
  | wake
  | skipEmpty
  | take (batch : List Nat)
  | finish (batch : List Nat)
  | resume (idx : Nat) (ret : Option String)
  | cancel
deriving DecidableEq

/-- The atomic steps of the system, one constructor per maximal region of
code between suspension points. -/
inductive Step : ServerState → Label → ServerState → Prop where
  | submitOk {s : ServerState} {rid : String} {s' : ServerState} {idx : Nat} :
      addRequestLocked s rid = Except.ok (s', idx) →
      Step s (Label.submitOk rid idx) s'
  | submitFull {s : ServerState} {rid : String} :
      addRequestLocked s rid = Except.error "Server too busy!" →
      Step s (Label.submitFull rid) s
  | timerFire {s : ServerState} :
      s.timers > 0 →
      Step s Label.timerFire (delayedProcessing s)
  | wake {s : ServerState} :
      s.consumer = ConsumerState.waiting →
      s.needs_processing = true →
      Step s Label.wake
        { s with needs_processing := false, consumer := ConsumerState.lockCheck }
  | skipEmpty {s : ServerState} :
      s.consumer = ConsumerState.lockCheck →
      s.queue = [] →
      Step s Label.skipEmpty { s with consumer := ConsumerState.waiting }
  | take {s : ServerState} :
      s.consumer = ConsumerState.lockCheck →
      s.queue ≠ [] →
      Step s (Label.take (s.queue.take MAX_BATCH_SIZE))
        { s with queue := s.queue.drop MAX_BATCH_SIZE,
                 consumer := ConsumerState.processing (s.queue.take MAX_BATCH_SIZE) }
  | finish {s : ServerState} {batch : List Nat} :
      s.consumer = ConsumerState.processing batch →
      Step s (Label.finish batch) (finishBatch s batch)
  | resume {s : ServerState} {idx : Nat} {r : Req} :
      s.reqs[idx]? = some r →
      r.done = true →
      Step s (Label.resume idx r.result) s
  | cancel {s : ServerState} :
      Step s Label.cancel { s with consumer := ConsumerState.cancelled }

/-- States reachable from the freshly constructed server. -/
inductive Reachable : ServerState → Prop where
  | init : Reachable initState
  | step {s : ServerState} {l : Label} {s' : ServerState} :
      Reachable s → Step s l s' → Reachable s'

/-! ### Characterization of the atomic operations -/

theorem addRequestLocked_ok {s : ServerState} {rid : String} {s' : ServerState}
    {idx : Nat} (h : addRequestLocked s rid = Except.ok (s', idx)) :
    s.queue.length < MAX_QUEUE_SIZE ∧
    idx = s.reqs.length ∧
    s'.reqs = s.reqs ++ [{ rid := rid, result := none, done := false }] ∧
    s'.queue = s.queue ++ [idx] ∧
    s'.consumer = s.consumer ∧
    (s'.queue.length ≥ MAX_BATCH_SIZE →
      s'.needs_processing = true ∧ s'.timers = s.timers) ∧
    (s'.queue.length = 1 →
      s'.needs_processing = s.needs_processing ∧ s'.timers = s.timers + 1) := by
  unfold addRequestLocked at h
  split at h
  · exact Except.noConfusion h
  next hfull =>
    dsimp only at h
    split at h
    next hbig =>
      cases h
      refine ⟨by omega, rfl, rfl, rfl, rfl, fun _ => ⟨rfl, rfl⟩, fun hone => ?_⟩
      exfalso
      simp only [List.length_append, List.length_singleton] at hbig hone
      simp [MAX_BATCH_SIZE] at hbig
      omega
    next hbig =>
      split at h
      next hone =>
        cases h
        refine ⟨by omega, rfl, rfl, rfl, rfl, fun hbig2 => ?_, fun _ => ⟨rfl, rfl⟩⟩
        exact absurd hbig2 hbig
      next hone =>
        cases h
        refine ⟨by omega, rfl, rfl, rfl, rfl, fun hbig2 => absurd hbig2 hbig,
          fun hone2 => absurd hone2 hone⟩

theorem addRequestLocked_error {s : ServerState} {rid : String} {e : String}
    (h : addRequestLocked s rid = Except.error e) :
    e = "Server too busy!" ∧ MAX_QUEUE_SIZE ≤ s.queue.length := by
  unfold addRequestLocked at h
  by_cases hfull : s.queue.length ≥ MAX_QUEUE_SIZE
  · simp [hfull] at h
    exact ⟨h.symm, hfull⟩
  · simp only [hfull, if_false, if_neg] at h
    split at h <;> simp at h
    split at h <;> simp at h

theorem addRequestLocked_full {s : ServerState} (rid : String)
    (h : MAX_QUEUE_SIZE ≤ s.queue.length) :
    addRequestLocked s rid = Except.error "Server too busy!" := by
  unfold addRequestLocked
  simp [h]

theorem completedReq_idem (r : Req) : completedReq (completedReq r) = completedReq r :=
  rfl

theorem length_completeOne (reqs : List Req) (i : Nat) :
    (completeOne reqs i).length = reqs.length := by
  unfold completeOne
  split
  · exact List.length_set ..
  · rfl

theorem length_foldl_completeOne (batch : List Nat) (reqs : List Req) :
    (batch.foldl completeOne reqs).length = reqs.length := by
  induction batch generalizing reqs with
  | nil => rfl
  | cons hd tl ih =>
    simp only [List.foldl_cons]
    rw [ih, length_completeOne]

theorem completeOne_getElem?_ne {reqs : List Req} {i j : Nat} (h : i ≠ j) :
    (completeOne reqs i)[j]? = reqs[j]? := by
  unfold completeOne
  split
  · exact List.getElem?_set_ne h
  · rfl

theorem completeOne_getElem?_eq {reqs : List Req} {i : Nat} {r : Req}
    (h : reqs[i]? = some r) :
    (completeOne reqs i)[i]? = some (completedReq r) := by
  unfold completeOne
  rw [h]
  exact List.getElem?_set_eq_of_lt _ (List.getElem?_eq_some.mp h).1

theorem foldl_completeOne_notMem {batch : List Nat} {reqs : List Req} {j : Nat}
    (h : j ∉ batch) :
    (batch.foldl completeOne reqs)[j]? = reqs[j]? := by
  induction batch generalizing reqs with
  | nil => rfl
  | cons hd tl ih =>
    simp only [List.foldl_cons]
    rw [ih (fun hm => h (List.mem_cons_of_mem hd hm)),
      completeOne_getElem?_ne
        (fun he => h (by rw [← he]; exact List.mem_cons_self hd tl))]

theorem foldl_completeOne_mem {batch : List Nat} {reqs : List Req} {j : Nat} {r : Req}
    (hj : j ∈ batch) (h : reqs[j]? = some r) :
    (batch.foldl completeOne reqs)[j]? = some (completedReq r) := by
  induction batch generalizing reqs r with
  | nil => cases hj
  | cons hd tl ih =>
    simp only [List.foldl_cons]
    by_cases hhd : hd = j
    · subst hhd
      have h1 : (completeOne reqs hd)[hd]? = some (completedReq r) :=
        completeOne_getElem?_eq h
      by_cases hmem : hd ∈ tl
      · rw [ih hmem h1, completedReq_idem]
      · rw [foldl_completeOne_notMem hmem, h1]
    · have h1 : (completeOne reqs hd)[j]? = some r :=
        (completeOne_getElem?_ne hhd).trans h
      have hjtl : j ∈ tl := by
        cases hj with
        | head => exact absurd rfl hhd
        | tail _ hm => exact hm
      exact ih hjtl h1

theorem getElem?_concat_cases {α : Type} {l : List α} {a r : α} {i : Nat}
    (h : (l ++ [a])[i]? = some r) :
    l[i]? = some r ∨ (i = l.length ∧ r = a) := by
  rcases Nat.lt_trichotomy i l.length with hlt | heq | hgt
  · left
    rw [← List.getElem?_append_left hlt]
    exact h
  · right
    subst heq
    rw [List.getElem?_concat_length] at h
    exact ⟨rfl, (Option.some.inj h).symm⟩
  · exfalso
    have hle : (l ++ [a]).length ≤ i := by
      simp only [List.length_append, List.length_singleton]
      omega
    rw [List.getElem?_eq_none hle] at h
    exact Option.noConfusion h

theorem inflight_waiting {s : ServerState} (h : s.consumer = ConsumerState.waiting) :
    inflight s = [] := by
  unfold inflight
  rw [h]

theorem inflight_lockCheck {s : ServerState}
    (h : s.consumer = ConsumerState.lockCheck) : inflight s = [] := by
  unfold inflight
  rw [h]

theorem inflight_processing {s : ServerState} {batch : List Nat}
    (h : s.consumer = ConsumerState.processing batch) : inflight s = batch := by
  unfold inflight
  rw [h]

/-! ### The global invariant -/

/-- Invariant maintained by every atomic step: the queue respects the
capacity bound, the in-flight batch respects the batch bound, every queued
or in-flight index denotes an existing request, no request occupies two
slots (so each request is removed in at most one batch), queued and
in-flight requests are still unwritten and unsignalled, and a raised done
event always coincides with a populated result slot holding the canonical
processed message. -/
structure Inv (s : ServerState) : Prop where
  qlen : s.queue.length ≤ MAX_QUEUE_SIZE
  blen : (inflight s).length ≤ MAX_BATCH_SIZE
  bounded : ∀ i ∈ s.queue ++ inflight s, i < s.reqs.length
  nodup : (s.queue ++ inflight s).Nodup
  pend : ∀ i ∈ s.queue ++ inflight s, ∀ (r : Req), s.reqs[i]? = some r →
    r.result = none ∧ r.done = false
  doneIff : ∀ (i : Nat) (r : Req), s.reqs[i]? = some r →
    (r.done = true ↔ r.result ≠ none)
  doneRes : ∀ (i : Nat) (r : Req), s.reqs[i]? = some r → r.done = true →
    r.result = some (processedMsg r.rid)

theorem inv_init : Inv initState := by
  refine ⟨?_, ?_, ?_, ?_, ?_, ?_, ?_⟩ <;>
    simp [initState, inflight, MAX_QUEUE_SIZE, MAX_BATCH_SIZE]

theorem inv_step {s : ServerState} {l : Label} {s' : ServerState}
    (hinv : Inv s) (hstep : Step s l s') : Inv s' := by
  obtain ⟨hq, hb, hbd, hnd, hp, hdi, hdr⟩ := hinv
  cases hstep with
  | submitOk h =>
    obtain ⟨hlt, hidx, hreqs, hqueue, hcons, _, _⟩ := addRequestLocked_ok h
    subst hidx
    have hinf : inflight s' = inflight s := by
      unfold inflight
      rw [hcons]
    have hnotin : s.reqs.length ∉ s.queue ++ inflight s :=
      fun hm => Nat.lt_irrefl _ (hbd _ hm)
    have hmem : ∀ i, i ∈ s'.queue ++ inflight s' →
        i ∈ s.queue ++ inflight s ∨ i = s.reqs.length := by
      intro i hi
      rw [hqueue, hinf] at hi
      rcases List.mem_append.mp hi with hi1 | hi2
      · rcases List.mem_append.mp hi1 with hq1 | hq2
        · exact Or.inl (List.mem_append.mpr (Or.inl hq1))
        · exact Or.inr (List.mem_singleton.mp hq2)
      · exact Or.inl (List.mem_append.mpr (Or.inr hi2))
    refine ⟨?_, ?_, ?_, ?_, ?_, ?_, ?_⟩
    · rw [hqueue]
      simp only [List.length_append, List.length_singleton]
      omega
    · rw [hinf]
      exact hb
    · intro i hi
      rw [hreqs]
      simp only [List.length_append, List.length_singleton]
      rcases hmem i hi with hold | hnew
      · have := hbd i hold
        omega
      · omega
    · rw [hqueue, hinf]
      obtain ⟨hnq, hnf, hdisj⟩ := List.nodup_append.mp hnd
      refine List.nodup_append.mpr ⟨List.nodup_append.mpr ⟨hnq, List.nodup_singleton _, ?_⟩,
        hnf, ?_⟩
      · intro a ha hb2
        have : a = s.reqs.length := List.mem_singleton.mp hb2
        subst this
        exact hnotin (List.mem_append.mpr (Or.inl ha))
      · intro a ha hf
        rcases List.mem_append.mp ha with ha1 | ha2
        · exact hdisj ha1 hf
        · have : a = s.reqs.length := List.mem_singleton.mp ha2
          subst this
          exact hnotin (List.mem_append.mpr (Or.inr hf))
    · intro i hi r hr
      rw [hreqs] at hr
      rcases getElem?_concat_cases hr with hold | ⟨hieq, hreq⟩
      · have hiold : i ∈ s.queue ++ inflight s := by
          rcases hmem i hi with h1 | h2
          · exact h1
          · exfalso
            have := (List.getElem?_eq_some.mp hold).1
            omega
        exact hp i hiold r hold
      · subst hreq
        exact ⟨rfl, rfl⟩
    · intro i r hr
      rw [hreqs] at hr
      rcases getElem?_concat_cases hr with hold | ⟨_, hreq⟩
      · exact hdi i r hold
      · subst hreq
        simp
    · intro i r hr
      rw [hreqs] at hr
      rcases getElem?_concat_cases hr with hold | ⟨_, hreq⟩
      · exact hdr i r hold
      · subst hreq
        intro hdone
        exact absurd hdone (by simp)
  | submitFull h =>
    exact ⟨hq, hb, hbd, hnd, hp, hdi, hdr⟩
  | timerFire h =>
    exact ⟨hq, hb, hbd, hnd, hp, hdi, hdr⟩
  | wake h1 h2 =>
    have hinf : inflight s = [] := inflight_waiting h1
    rw [hinf] at hbd hnd hp
    exact ⟨hq, Nat.zero_le _, hbd, hnd, hp, hdi, hdr⟩
  | skipEmpty h1 h2 =>
    have hinf : inflight s = [] := inflight_lockCheck h1
    rw [hinf] at hbd hnd hp
    exact ⟨hq, Nat.zero_le _, hbd, hnd, hp, hdi, hdr⟩
  | take h1 h2 =>
    have hinf : inflight s = [] := inflight_lockCheck h1
    rw [hinf, List.append_nil] at hbd hnd hp
    have hqnd : s.queue.Nodup := hnd
    refine ⟨?_, ?_, ?_, ?_, ?_, hdi, hdr⟩
    · show (s.queue.drop MAX_BATCH_SIZE).length ≤ MAX_QUEUE_SIZE
      rw [List.length_drop]
      omega
    · show (s.queue.take MAX_BATCH_SIZE).length ≤ MAX_BATCH_SIZE
      rw [List.length_take]
      exact Nat.min_le_left _ _
    · intro i hi
      rcases List.mem_append.mp hi with h3 | h4
      · exact hbd i (List.mem_of_mem_drop h3)
      · exact hbd i (List.mem_of_mem_take h4)
    · have h3 : (s.queue.take MAX_BATCH_SIZE ++ s.queue.drop MAX_BATCH_SIZE).Nodup := by
        rw [List.take_append_drop]
        exact hqnd
      exact List.perm_append_comm.nodup h3
    · intro i hi r hr
      rcases List.mem_append.mp hi with h3 | h4
      · exact hp i (List.mem_of_mem_drop h3) r hr
      · exact hp i (List.mem_of_mem_take h4) r hr
  | finish hcons =>
    rename_i batch
    have hinf : inflight s = batch := inflight_processing hcons
    rw [hinf] at hbd hnd hp
    have hdisj : List.Disjoint s.queue batch := List.disjoint_of_nodup_append hnd
    refine ⟨?_, ?_, ?_, ?_, ?_, ?_, ?_⟩
    · exact hq
    · exact Nat.zero_le _
    · intro i hi
      show i < (batch.foldl completeOne s.reqs).length
      rw [length_foldl_completeOne]
      have hiq : i ∈ s.queue := by
        rcases List.mem_append.mp hi with h3 | h4
        · exact h3
        · exact absurd h4 (List.not_mem_nil i)
      exact hbd i (List.mem_append.mpr (Or.inl hiq))
    · show (s.queue ++ ([] : List Nat)).Nodup
      rw [List.append_nil]
      exact hnd.of_append_left
    · intro i hi r hr
      have hiq : i ∈ s.queue := by
        rcases List.mem_append.mp hi with h3 | h4
        · exact h3
        · exact absurd h4 (List.not_mem_nil i)
      have hib : i ∉ batch := fun hm => hdisj hiq hm
      have hr' : s.reqs[i]? = some r := by
        rw [← foldl_completeOne_notMem hib]
        exact hr
      exact hp i (List.mem_append.mpr (Or.inl hiq)) r hr'
    · intro i r hr
      have hr0 : (batch.foldl completeOne s.reqs)[i]? = some r := hr
      by_cases hib : i ∈ batch
      · have hlt : i < s.reqs.length := by
          have := (List.getElem?_eq_some.mp hr0).1
          rw [length_foldl_completeOne] at this
          exact this
        obtain ⟨r0, hr1⟩ : ∃ r0, s.reqs[i]? = some r0 :=
          ⟨s.reqs[i], List.getElem?_eq_getElem hlt⟩
        rw [foldl_completeOne_mem hib hr1] at hr0
        have : completedReq r0 = r := Option.some.inj hr0
        subst this
        simp [completedReq]
      · rw [foldl_completeOne_notMem hib] at hr0
        exact hdi i r hr0
    · intro i r hr hdone
      have hr0 : (batch.foldl completeOne s.reqs)[i]? = some r := hr
      by_cases hib : i ∈ batch
      · have hlt : i < s.reqs.length := by
          have := (List.getElem?_eq_some.mp hr0).1
          rw [length_foldl_completeOne] at this
          exact this
        obtain ⟨r0, hr1⟩ : ∃ r0, s.reqs[i]? = some r0 :=
          ⟨s.reqs[i], List.getElem?_eq_getElem hlt⟩
        rw [foldl_completeOne_mem hib hr1] at hr0
        have : completedReq r0 = r := Option.some.inj hr0
        subst this
        simp [completedReq]
      · rw [foldl_completeOne_notMem hib] at hr0
        exact hdr i r hr0 hdone
  | resume h1 h2 =>
    exact ⟨hq, hb, hbd, hnd, hp, hdi, hdr⟩
  | cancel =>
    refine ⟨hq, Nat.zero_le _, ?_, ?_, ?_, hdi, hdr⟩
    · intro i hi
      have hiq : i ∈ s.queue := by
        rcases List.mem_append.mp hi with h3 | h4
        · exact h3
        · exact absurd h4 (List.not_mem_nil i)
      exact hbd i (List.mem_append.mpr (Or.inl hiq))
    · show (s.queue ++ ([] : List Nat)).Nodup
      rw [List.append_nil]
      exact hnd.of_append_left
    · intro i hi r hr
      have hiq : i ∈ s.queue := by
        rcases List.mem_append.mp hi with h3 | h4
        · exact h3
        · exact absurd h4 (List.not_mem_nil i)
      exact hp i (List.mem_append.mpr (Or.inl hiq)) r hr

theorem reachable_inv {s : ServerState} (h : Reachable s) : Inv s := by
  induction h with
  | init => exact inv_init
  | step _ hstep ih => exact inv_step ih hstep

/-- A result slot, once written, never changes again (and the whole record
is frozen): steps only write slots of requests that are still pending. -/
theorem result_stable {s : ServerState} {l : Label} {s' : ServerState} {i : Nat}
    {r : Req} {v : String} (hinv : Inv s) (hstep : Step s l s')
    (hr : s.reqs[i]? = some r) (hv : r.result = some v) :
    s'.reqs[i]? = some r := by
  cases hstep with
  | submitOk h =>
    obtain ⟨_, _, hreqs, _, _, _, _⟩ := addRequestLocked_ok h
    rw [hreqs]
    rw [List.getElem?_append_left (List.getElem?_eq_some.mp hr).1]
    exact hr
  | submitFull h => exact hr
  | timerFire h => exact hr
  | wake h1 h2 => exact hr
  | skipEmpty h1 h2 => exact hr
  | take h1 h2 => exact hr
  | finish hcons =>
    rename_i batch
    have hib : i ∉ batch := by
      intro hm
      have hmem : i ∈ s.queue ++ inflight s :=
        List.mem_append.mpr (Or.inr (by rw [inflight_processing hcons]; exact hm))
      have := (hinv.pend i hmem r hr).1
      rw [this] at hv
      exact Option.noConfusion hv
    show (batch.foldl completeOne s.reqs)[i]? = some r
    rw [foldl_completeOne_notMem hib]
    exact hr
  | resume h1 h2 => exact hr
  | cancel => exact hr

/-! ### Quiescent states

A state with the wake signal down, no pending deferred-wake timer and the
consumer parked (waiting or cancelled) can only be left by a new
submission: every other step leaves the queue and the request store
untouched.  This is the engine behind the starvation analysis of the
consumer loop. -/

def isSubmitOkLabel : Label → Bool
  | Label.submitOk _ _ => true
  | _ => false

/-- Executions from `s0` that contain no successful submission: the
adversarial continuation in which no further client ever calls
`add_request` successfully. -/
inductive ReachAvoiding (s0 : ServerState) : ServerState → Prop where
  | refl : ReachAvoiding s0 s0
  | step {s : ServerState} {l : Label} {s' : ServerState} :
      ReachAvoiding s0 s → Step s l s' → isSubmitOkLabel l = false →
      ReachAvoiding s0 s'

def Quiescent (s : ServerState) : Prop :=
  s.needs_processing = false ∧ s.timers = 0 ∧
  (s.consumer = ConsumerState.waiting ∨ s.consumer = ConsumerState.cancelled)

theorem quiescent_step {s : ServerState} {l : Label} {s' : ServerState}
    (hq : Quiescent s) (hstep : Step s l s') (hl : isSubmitOkLabel l = false) :
    s'.reqs = s.reqs ∧ s'.queue = s.queue ∧ Quiescent s' := by
  obtain ⟨hnp, ht, hc⟩ := hq
  cases hstep with
  | submitOk h => simp [isSubmitOkLabel] at hl
  | submitFull h => exact ⟨rfl, rfl, hnp, ht, hc⟩
  | timerFire h =>
    rw [ht] at h
    exact absurd h (Nat.lt_irrefl 0)
  | wake h1 h2 =>
    rw [hnp] at h2
    exact Bool.noConfusion h2
  | skipEmpty h1 h2 =>
    rcases hc with h | h <;> rw [h] at h1 <;> exact ConsumerState.noConfusion h1
  | take h1 h2 =>
    rcases hc with h | h <;> rw [h] at h1 <;> exact ConsumerState.noConfusion h1
  | finish hcons =>
    rcases hc with h | h <;> rw [h] at hcons <;> exact ConsumerState.noConfusion hcons
  | resume h1 h2 => exact ⟨rfl, rfl, hnp, ht, hc⟩
  | cancel => exact ⟨rfl, rfl, hnp, ht, Or.inr rfl⟩

theorem quiescent_reach {s0 s' : ServerState} (hq : Quiescent s0)
    (h : ReachAvoiding s0 s') :
    s'.reqs = s0.reqs ∧ s'.queue = s0.queue ∧ Quiescent s' := by
  induction h with
  | refl => exact ⟨rfl, rfl, hq⟩
  | step hr hstep hl ih =>
    obtain ⟨h1, h2, h3⟩ := ih
    obtain ⟨h4, h5, h6⟩ := quiescent_step h3 hstep hl
    exact ⟨h4.trans h1, h5.trans h2, h6⟩

/-! ### Concrete executions

Request records and intermediate states of two executions used as
witnesses and counterexamples below.  `c7s*` follows the three
back-to-back submissions of §8 Scenario C (requests "A", "B", "C" into an
empty server).  `stv*` follows five submissions ("A".."E"): "A" and "B"
are batched, "C", "D", "E" are admitted while that batch is in flight,
both deferred-wake timers fire while the wake signal is already up, and
after the second batch ["C","D"] the remainder ["E"] is left in a
quiescent state. -/

def freshReq (rid : String) : Req := { rid := rid, result := none, done := false }

def sA : ServerState :=
  { reqs := [freshReq "A"], queue := [0], needs_processing := false,
    timers := 1, consumer := ConsumerState.waiting }

def c7s2 : ServerState :=
  { reqs := [freshReq "A", freshReq "B"], queue := [0, 1],
    needs_processing := true, timers := 1, consumer := ConsumerState.waiting }

def c7s3 : ServerState :=
  { reqs := [freshReq "A", freshReq "B", freshReq "C"], queue := [0, 1, 2],
    needs_processing := true, timers := 1, consumer := ConsumerState.waiting }

def c7s4 : ServerState :=
  { c7s3 with needs_processing := false, consumer := ConsumerState.lockCheck }

def c7s5 : ServerState :=
  { c7s4 with queue := [2], consumer := ConsumerState.processing [0, 1] }

def c7s6 : ServerState :=
  { c7s5 with
    reqs := [completedReq (freshReq "A"), completedReq (freshReq "B"), freshReq "C"],
    consumer := ConsumerState.waiting }

def c7s7 : ServerState :=
  { c7s6 with needs_processing := true, timers := 0 }

def c7s8 : ServerState :=
  { c7s7 with needs_processing := false, consumer := ConsumerState.lockCheck }

def c7s9 : ServerState :=
  { c7s8 with queue := [], consumer := ConsumerState.processing [2] }

def c7s10 : ServerState :=
  { c7s9 with
    reqs := [completedReq (freshReq "A"), completedReq (freshReq "B"),
      completedReq (freshReq "C")],
    consumer := ConsumerState.waiting }

def solT : ServerState :=
  { sA with needs_processing := true, timers := 0 }

def solW : ServerState :=
  { solT with needs_processing := false, consumer := ConsumerState.lockCheck }

def solP : ServerState :=
  { solW with queue := [], consumer := ConsumerState.processing [0] }

def solF : ServerState :=
  { solP with
    reqs := [completedReq (freshReq "A")],
    consumer := ConsumerState.waiting }

def c8s2 : ServerState :=
  { sA with consumer := ConsumerState.cancelled }

def c8s3 : ServerState :=
  { c8s2 with needs_processing := true, timers := 0 }

def stv3 : ServerState :=
  { c7s2 with needs_processing := false, consumer := ConsumerState.lockCheck }

def stv4 : ServerState :=
  { stv3 with queue := [], consumer := ConsumerState.processing [0, 1] }

def stv5 : ServerState :=
  { stv4 with
    reqs := [freshReq "A", freshReq "B", freshReq "C"],
    queue := [2], timers := 2 }

def stv6 : ServerState :=
  { stv5 with
    reqs := [freshReq "A", freshReq "B", freshReq "C", freshReq "D"],
    queue := [2, 3], needs_processing := true }

def stv7 : ServerState :=
  { stv6 with
    reqs := [freshReq "A", freshReq "B", freshReq "C", freshReq "D", freshReq "E"],
    queue := [2, 3, 4] }

def stv8 : ServerState := { stv7 with timers := 1 }

def stv9 : ServerState := { stv8 with timers := 0 }

def stv10 : ServerState :=
  { stv9 with
    reqs := [completedReq (freshReq "A"), completedReq (freshReq "B"),
      freshReq "C", freshReq "D", freshReq "E"],
    consumer := ConsumerState.waiting }

def stv11 : ServerState :=
  { stv10 with needs_processing := false, consumer := ConsumerState.lockCheck }

def stv12 : ServerState :=
  { stv11 with queue := [4], consumer := ConsumerState.processing [2, 3] }

def stv13 : ServerState :=
  { stv12 with
    reqs := [completedReq (freshReq "A"), completedReq (freshReq "B"),
      completedReq (freshReq "C"), completedReq (freshReq "D"), freshReq "E"],
    consumer := ConsumerState.waiting }

theorem reach_sA : Reachable sA :=
  Reachable.step Reachable.init (@Step.submitOk initState "A" sA 0 rfl)

theorem reach_c7s2 : Reachable c7s2 :=
  Reachable.step reach_sA (@Step.submitOk sA "B" c7s2 1 rfl)

theorem reach_c7s6 : Reachable c7s6 := by
  have h3 : Reachable c7s3 := reach_c7s2.step (@Step.submitOk c7s2 "C" c7s3 2 rfl)
  have h4 : Reachable c7s4 := h3.step (Step.wake rfl rfl)
  have h5 : Reachable c7s5 := h4.step (Step.take rfl (by decide))
  exact h5.step (@Step.finish c7s5 [0, 1] rfl)

theorem reach_c7s10 : Reachable c7s10 := by
  have h7 : Reachable c7s7 := reach_c7s6.step (Step.timerFire (by decide))
  have h8 : Reachable c7s8 := h7.step (Step.wake rfl rfl)
  have h9 : Reachable c7s9 := h8.step (Step.take rfl (by decide))
  exact h9.step (@Step.finish c7s9 [2] rfl)

theorem reach_solF : Reachable solF := by
  have h2 : Reachable solT := reach_sA.step (Step.timerFire (by decide))
  have h3 : Reachable solW := h2.step (Step.wake rfl rfl)
  have h4 : Reachable solP := h3.step (Step.take rfl (by decide))
  exact h4.step (@Step.finish solP [0] rfl)

theorem reach_stv7 : Reachable stv7 := by
  have h3 : Reachable stv3 := reach_c7s2.step (Step.wake rfl rfl)
  have h4 : Reachable stv4 := h3.step (Step.take rfl (by decide))
  have h5 : Reachable stv5 := h4.step (@Step.submitOk stv4 "C" stv5 2 rfl)
  have h6 : Reachable stv6 := h5.step (@Step.submitOk stv5 "D" stv6 3 rfl)
  exact h6.step (@Step.submitOk stv6 "E" stv7 4 rfl)

theorem reach_stv13 : Reachable stv13 := by
  have h8 : Reachable stv8 := reach_stv7.step (Step.timerFire (by decide))
  have h9 : Reachable stv9 := h8.step (Step.timerFire (by decide))
  have h10 : Reachable stv10 := h9.step (@Step.finish stv9 [0, 1] rfl)
  have h11 : Reachable stv11 := h10.step (Step.wake rfl rfl)
  have h12 : Reachable stv12 := h11.step (Step.take rfl (by decide))
  exact h12.step (@Step.finish stv12 [2, 3] rfl)

/-- Behaviour of a deferred-wake timer at fire time (lines 43-44): it
raises the wake signal exactly when the queue is non-empty at that moment,
and touches nothing else. -/
theorem delayedProcessing_needs (s : ServerState) :
    (s.queue ≠ [] → (delayedProcessing s).needs_processing = true) ∧
    (s.queue = [] → (delayedProcessing s).needs_processing = s.needs_processing) := by
  constructor
  · intro hne
    cases hq : s.queue with
    | nil => exact absurd hq hne
    | cons a t => simp [delayedProcessing, hq]
  · intro he
    simp [delayedProcessing, he]

/-! ### The claims -/

/-- C1: Capacity invariant.  In every reachable state the pending queue
holds at most `MAX_QUEUE_SIZE` (3) requests, and every successful
`add_request` appends exactly one element after the under-lock length
check has passed (the pre-state queue was strictly below the bound). -/
theorem C1_capacity_invariant :
    (∀ (s : ServerState), Reachable s → s.queue.length ≤ MAX_QUEUE_SIZE) ∧
    (∀ (s : ServerState) (rid : String) (s' : ServerState) (idx : Nat),
      addRequestLocked s rid = Except.ok (s', idx) →
      s.queue.length < MAX_QUEUE_SIZE ∧ s'.queue = s.queue ++ [idx]) := by
  constructor
  · intro s hs
    exact (reachable_inv hs).qlen
  · intro s rid s' idx h
    obtain ⟨h1, h2, _, h4, _⟩ := addRequestLocked_ok h
    subst h2
    exact ⟨h1, h4⟩

theorem C1_capacity_invariant_witness :
    stv7.queue.length ≤ MAX_QUEUE_SIZE ∧
    (sA.queue.length < MAX_QUEUE_SIZE ∧ c7s2.queue = sA.queue ++ [1]) :=
  ⟨C1_capacity_invariant.1 stv7 reach_stv7,
   C1_capacity_invariant.2 sA "B" c7s2 1 rfl⟩

/-- C2: Batch extraction.  Every batch removed by a consumer `take` step
is exactly the front prefix `queue[:2]` of the pending queue, of size
`min (queue length) MAX_BATCH_SIZE` — hence ≤ 2, and exactly 2 whenever
the queue held ≥ 2 — and the post-removal queue is the rest, in unchanged
order (`batch ++ rest = queue`), so requests enter batches in FIFO arrival
order. -/
theorem C2_batch_extraction :
    ∀ (s : ServerState) (batch : List Nat) (s' : ServerState),
      Step s (Label.take batch) s' →
      batch = s.queue.take MAX_BATCH_SIZE ∧
      batch.length = min s.queue.length MAX_BATCH_SIZE ∧
      batch.length ≤ MAX_BATCH_SIZE ∧
      (MAX_BATCH_SIZE ≤ s.queue.length → batch.length = MAX_BATCH_SIZE) ∧
      s'.queue = s.queue.drop MAX_BATCH_SIZE ∧
      batch ++ s'.queue = s.queue := by
  intro s batch s' hstep
  cases hstep with
  | take h1 h2 =>
    refine ⟨rfl, ?_, ?_, ?_, rfl, ?_⟩
    · rw [List.length_take, Nat.min_comm]
    · rw [List.length_take]
      exact Nat.min_le_left _ _
    · intro hge
      rw [List.length_take]
      exact Nat.min_eq_left hge
    · exact List.take_append_drop _ _

theorem C2_batch_extraction_witness :
    ([0, 1] : List Nat) = c7s4.queue.take MAX_BATCH_SIZE ∧
    ([0, 1] : List Nat) ++ c7s5.queue = c7s4.queue :=
  ⟨(C2_batch_extraction c7s4 [0, 1] c7s5 (Step.take rfl (by decide))).1,
   (C2_batch_extraction c7s4 [0, 1] c7s5 (Step.take rfl (by decide))).2.2.2.2.2⟩

/-- C3: Wake-trigger decision in submit.  A successful `add_request` grows
the queue by one; if the new size reaches `MAX_BATCH_SIZE` it raises the
wake signal (and schedules no timer), otherwise the new size is exactly 1
and it schedules one deferred-wake timer (leaving the signal as it was);
these cases are exhaustive, so submit does nothing else.  A deferred-wake
timer, when it fires, raises the wake signal iff the queue is non-empty at
that moment, and its delay is the code's 1 time unit
(`asyncio.sleep(1)`). -/
theorem C3_wake_trigger :
    (∀ (s : ServerState) (rid : String) (s' : ServerState) (idx : Nat),
      addRequestLocked s rid = Except.ok (s', idx) →
      s'.queue.length = s.queue.length + 1 ∧
      (MAX_BATCH_SIZE ≤ s'.queue.length ∨ s'.queue.length = 1) ∧
      (MAX_BATCH_SIZE ≤ s'.queue.length →
        s'.needs_processing = true ∧ s'.timers = s.timers) ∧
      (s'.queue.length = 1 →
        s'.needs_processing = s.needs_processing ∧ s'.timers = s.timers + 1)) ∧
    (∀ (s : ServerState),
      (s.queue ≠ [] → (delayedProcessing s).needs_processing = true) ∧
      (s.queue = [] → (delayedProcessing s).needs_processing = s.needs_processing)) ∧
    deferredWakeDelay = 1 := by
  refine ⟨?_, delayedProcessing_needs, rfl⟩
  intro s rid s' idx h
  obtain ⟨_, _, _, hqueue, _, hge, hone⟩ := addRequestLocked_ok h
  have hlen : s'.queue.length = s.queue.length + 1 := by
    rw [hqueue]
    simp
  refine ⟨hlen, ?_, hge, hone⟩
  rw [hlen]
  have : MAX_BATCH_SIZE = 2 := rfl
  omega

theorem C3_wake_trigger_witness :
    c7s2.queue.length = sA.queue.length + 1 ∧
    (delayedProcessing c7s6).needs_processing = true :=
  ⟨(C3_wake_trigger.1 sA "B" c7s2 1 rfl).1,
   (C3_wake_trigger.2.1 c7s6).1 (by decide)⟩

/-- C4: Exactly-once result delivery.  In every reachable state: no
request index occupies two slots of queue-plus-in-flight-batch (so a
request is removed in at most one batch); queued or in-flight requests
have an unwritten result slot and an unraised done event; the done event
is raised exactly when the slot is written, and then the slot holds the
canonical processed message (so the signal is never observable before the
write).  Moreover a written slot never changes across any further step
(written at most once), and a resume of a submit call returns exactly the
value in the request's result slot, leaving the state unchanged. -/
theorem C4_exactly_once :
    (∀ (s : ServerState), Reachable s →
      (s.queue ++ inflight s).Nodup ∧
      (∀ i ∈ s.queue ++ inflight s, ∀ (r : Req), s.reqs[i]? = some r →
        r.result = none ∧ r.done = false) ∧
      (∀ (i : Nat) (r : Req), s.reqs[i]? = some r →
        (r.done = true ↔ r.result ≠ none)) ∧
      (∀ (i : Nat) (r : Req), s.reqs[i]? = some r → r.done = true →
        r.result = some (processedMsg r.rid))) ∧
    (∀ (s : ServerState) (l : Label) (s' : ServerState) (i : Nat) (r : Req)
      (v : String),
      Reachable s → Step s l s' → s.reqs[i]? = some r → r.result = some v →
      s'.reqs[i]? = some r) ∧
    (∀ (s s' : ServerState) (idx : Nat) (ret : Option String),
      Step s (Label.resume idx ret) s' →
      s' = s ∧ ∃ (r : Req), s.reqs[idx]? = some r ∧ r.done = true ∧
        ret = r.result) := by
  refine ⟨?_, ?_, ?_⟩
  · intro s hs
    obtain ⟨_, _, _, hnd, hp, hdi, hdr⟩ := reachable_inv hs
    exact ⟨hnd, hp, hdi, hdr⟩
  · intro s l s' i r v hs hstep hr hv
    exact result_stable (reachable_inv hs) hstep hr hv
  · intro s s' idx ret hstep
    cases hstep with
    | resume h1 h2 => exact ⟨rfl, _, h1, h2, rfl⟩

theorem C4_exactly_once_witness :
    (solF.queue ++ inflight solF).Nodup ∧
    c7s7.reqs[0]? = some (completedReq (freshReq "A")) :=
  ⟨(C4_exactly_once.1 solF reach_solF).1,
   C4_exactly_once.2.1 c7s6 Label.timerFire c7s7 0 (completedReq (freshReq "A"))
     (processedMsg "A") reach_c7s6 (Step.timerFire (by decide)) rfl rfl⟩

/-- C5: Full-queue rejection.  `add_request` on a queue already holding
`MAX_QUEUE_SIZE` items fails with the distinguishable `"Server too busy!"`
error — and that is the only error it can produce — and the failing step
leaves the state unchanged (no request record created, queue untouched).
The check runs inside the single atomic locked region, before any
suspension of the caller. -/
theorem C5_full_queue_rejection :
    ∀ (s : ServerState) (rid : String),
      (MAX_QUEUE_SIZE ≤ s.queue.length →
        addRequestLocked s rid = Except.error "Server too busy!") ∧
      (∀ (e : String), addRequestLocked s rid = Except.error e →
        e = "Server too busy!" ∧ MAX_QUEUE_SIZE ≤ s.queue.length) ∧
      (∀ (s' : ServerState), Step s (Label.submitFull rid) s' → s' = s) := by
  intro s rid
  refine ⟨addRequestLocked_full rid, fun e h => addRequestLocked_error h, ?_⟩
  intro s' hstep
  cases hstep with
  | submitFull h => rfl

theorem C5_full_queue_rejection_witness :
    addRequestLocked stv7 "F" = Except.error "Server too busy!" :=
  (C5_full_queue_rejection stv7 "F").1 (by decide)

/-- C6 counterexample: liveness fails for some interleavings even with the
consumer loop running.  After five submissions "A".."E" (both deferred-wake
timers fire while the wake signal is already raised, their wakes absorbed
by a single consumer cycle) the reachable state `stv13` has request 4
("E") enqueued, the consumer parked waiting, no pending timer and the
wake signal down; along every continuation that contains no further
successful submission, request "E" stays enqueued and never completes, so
its submit call never returns. -/
theorem C6_liveness_counterexample :
    Reachable stv13 ∧
    stv13.consumer = ConsumerState.waiting ∧
    stv13.queue = [4] ∧
    stv13.reqs[4]? = some (freshReq "E") ∧
    ∀ (s' : ServerState), ReachAvoiding stv13 s' →
      s'.queue = [4] ∧ s'.reqs[4]? = some (freshReq "E") := by
  refine ⟨reach_stv13, rfl, rfl, rfl, ?_⟩
  intro s' h
  obtain ⟨h1, h2, _⟩ := quiescent_reach ⟨rfl, rfl, Or.inl rfl⟩ h
  constructor
  · rw [h2]
    rfl
  · rw [h1]
    rfl

/-- C6 (amended): liveness holds for a solitary request arriving to an
empty, idle server — its deferred-wake timer fires, wakes the consumer,
and one take/process/finish cycle completes it, after which its submit
call resumes with the processed result — but it does not hold for every
interleaving of submissions (see the counterexample). -/
theorem C6_liveness_amended :
    Step initState (Label.submitOk "A" 0) sA ∧ sA.timers = 1 ∧
    Step sA Label.timerFire solT ∧ solT.needs_processing = true ∧
    Step solT Label.wake solW ∧
    Step solW (Label.take [0]) solP ∧
    Step solP (Label.finish [0]) solF ∧
    solF.reqs[0]? = some (completedReq (freshReq "A")) ∧
    Step solF (Label.resume 0 (some (processedMsg "A"))) solF ∧
    Reachable solF :=
  ⟨@Step.submitOk initState "A" sA 0 rfl, rfl,
   Step.timerFire (by decide), rfl,
   Step.wake rfl rfl,
   Step.take rfl (by decide),
   @Step.finish solP [0] rfl, rfl,
   @Step.resume solF 0 (completedReq (freshReq "A")) rfl rfl,
   reach_solF⟩

/-- C7 counterexample: in the back-to-back scenario the third submission
does not trigger a deferred wake of its own.  It finds the queue at size
2, takes the `len(queue) >= 2` branch, and leaves the pending-timer count
unchanged at 1 (the sole timer being the one scheduled by the first
submission). -/
theorem C7_scenarioC_counterexample :
    addRequestLocked c7s2 "C" = Except.ok (c7s3, 2) ∧
    c7s2.timers = 1 ∧ c7s3.timers = 1 :=
  ⟨rfl, rfl, rfl⟩

/-- C7 (amended): three submissions back-to-back into an empty queue — the
first two form one batch of size 2 and resolve together in one finish
step; the third is left the sole occupant of the remaining queue and
resolves after a second processing cycle, woken not by a deferred wake of
its own (its submission schedules none) but by the stale deferred-wake
timer scheduled by the first submission. -/
theorem C7_scenarioC_amended :
    Step initState (Label.submitOk "A" 0) sA ∧ sA.timers = 1 ∧
    Step sA (Label.submitOk "B" 1) c7s2 ∧
    Step c7s2 (Label.submitOk "C" 2) c7s3 ∧ c7s3.timers = 1 ∧
    Step c7s3 Label.wake c7s4 ∧
    Step c7s4 (Label.take [0, 1]) c7s5 ∧ c7s5.queue = [2] ∧
    Step c7s5 (Label.finish [0, 1]) c7s6 ∧
    c7s6.reqs[0]? = some (completedReq (freshReq "A")) ∧
    c7s6.reqs[1]? = some (completedReq (freshReq "B")) ∧
    c7s6.reqs[2]? = some (freshReq "C") ∧
    Step c7s6 Label.timerFire c7s7 ∧ c7s7.needs_processing = true ∧
    Step c7s7 Label.wake c7s8 ∧
    Step c7s8 (Label.take [2]) c7s9 ∧
    Step c7s9 (Label.finish [2]) c7s10 ∧
    c7s10.reqs[2]? = some (completedReq (freshReq "C")) :=
  ⟨@Step.submitOk initState "A" sA 0 rfl, rfl,
   @Step.submitOk sA "B" c7s2 1 rfl,
   @Step.submitOk c7s2 "C" c7s3 2 rfl, rfl,
   Step.wake rfl rfl,
   Step.take rfl (by decide), rfl,
   @Step.finish c7s5 [0, 1] rfl,
   rfl, rfl, rfl,
   Step.timerFire (by decide), rfl,
   Step.wake rfl rfl,
   Step.take rfl (by decide),
   @Step.finish c7s9 [2] rfl,
   rfl⟩

/-- C8 counterexample: cancelling the consumer task — the only shutdown
operation the program performs (`processor_task.cancel()`; deferred-wake
tasks are fire-and-forget and never tracked) — does not cancel pending
deferred-wake timers: after the cancel a previously scheduled timer is
still pending and still fires, raising the wake signal. -/
theorem C8_shutdown_counterexample :
    Step sA Label.cancel c8s2 ∧ c8s2.timers = 1 ∧
    Step c8s2 Label.timerFire c8s3 ∧ c8s3.needs_processing = true :=
  ⟨Step.cancel, rfl, Step.timerFire (by decide), rfl⟩

/-- C8 (amended): the shutdown performed by the program is cancelling the
consumer task.  It stops the consumer loop (a cancelled consumer can never
again take or finish a batch) and neither drains nor fails enqueued
requests — queue, request records, wake signal and pending timers are all
left untouched — but pending deferred-wake timers are not cancelled (see
the counterexample). -/
theorem C8_shutdown_amended :
    (∀ (s s' : ServerState), Step s Label.cancel s' →
      s'.queue = s.queue ∧ s'.reqs = s.reqs ∧ s'.timers = s.timers ∧
      s'.needs_processing = s.needs_processing ∧
      s'.consumer = ConsumerState.cancelled) ∧
    (∀ (s : ServerState) (batch : List Nat) (s' : ServerState),
      s.consumer = ConsumerState.cancelled → ¬Step s (Label.take batch) s') ∧
    (∀ (s : ServerState) (batch : List Nat) (s' : ServerState),
      s.consumer = ConsumerState.cancelled → ¬Step s (Label.finish batch) s') := by
  refine ⟨?_, ?_, ?_⟩
  · intro s s' hstep
    cases hstep with
    | cancel => exact ⟨rfl, rfl, rfl, rfl, rfl⟩
  · intro s batch s' hc hstep
    cases hstep with
    | take h1 h2 =>
      rw [hc] at h1
      exact ConsumerState.noConfusion h1
  · intro s batch s' hc hstep
    cases hstep with
    | finish hcons =>
      rw [hc] at hcons
      exact ConsumerState.noConfusion hcons

theorem C8_shutdown_witness :
    c8s2.queue = sA.queue ∧ c8s2.consumer = ConsumerState.cancelled :=
  ⟨(C8_shutdown_amended.1 sA c8s2 Step.cancel).1,
   (C8_shutdown_amended.1 sA c8s2 Step.cancel).2.2.2.2⟩

/-- C9: stale deferred-wake timers.  No step other than a timer firing
ever consumes a pending timer (timers are never cancelled or refreshed);
a pending timer may fire at any time and, if the queue is then non-empty,
raises the wake signal regardless of whether the request that scheduled it
is still queued; and apart from a new successful submission, a timer
firing is the only kind of step that can raise the wake signal from the
down state — in particular the only way a non-empty remainder left behind
by a batch removal ever wakes the consumer again.  The concrete stale
firing: in `c7s6` the timer scheduled by request 0 (already completed and
long gone from the queue) fires on behalf of the current sole occupant,
request 2. -/
theorem C9_stale_timers :
    (∀ (s : ServerState) (l : Label) (s' : ServerState),
      Step s l s' → l ≠ Label.timerFire → s.timers ≤ s'.timers) ∧
    (∀ (s : ServerState), 0 < s.timers → s.queue ≠ [] →
      Step s Label.timerFire (delayedProcessing s) ∧
      (delayedProcessing s).needs_processing = true) ∧
    (∀ (s : ServerState) (l : Label) (s' : ServerState),
      Step s l s' → s.needs_processing = false → s'.needs_processing = true →
      l = Label.timerFire ∨
        ∃ (rid : String) (idx : Nat), l = Label.submitOk rid idx) ∧
    (Step c7s6 Label.timerFire c7s7 ∧
      c7s6.reqs[0]? = some (completedReq (freshReq "A")) ∧
      (0 : Nat) ∉ c7s6.queue ∧ c7s7.needs_processing = true) := by
  refine ⟨?_, ?_, ?_, Step.timerFire (by decide), rfl, by decide, rfl⟩
  · intro s l s' hstep hl
    cases hstep with
    | submitOk h =>
      obtain ⟨_, _, _, hqueue, _, hge, hone⟩ := addRequestLocked_ok h
      have hlen : s'.queue.length = s.queue.length + 1 := by
        rw [hqueue]
        simp
      by_cases hz : s.queue.length = 0
      · rw [(hone (by rw [hlen, hz])).2]
        exact Nat.le_succ _
      · rw [(hge (by
          rw [hlen]
          have h2 : MAX_BATCH_SIZE = 2 := rfl
          omega)).2]
    | submitFull h => exact Nat.le_refl _
    | timerFire h => exact absurd rfl hl
    | wake h1 h2 => exact Nat.le_refl _
    | skipEmpty h1 h2 => exact Nat.le_refl _
    | take h1 h2 => exact Nat.le_refl _
    | finish hcons => exact Nat.le_refl _
    | resume h1 h2 => exact Nat.le_refl _
    | cancel => exact Nat.le_refl _
  · intro s ht hne
    exact ⟨Step.timerFire ht, (delayedProcessing_needs s).1 hne⟩
  · intro s l s' hstep hnp hnp'
    cases hstep with
    | submitOk h => exact Or.inr ⟨_, _, rfl⟩
    | submitFull h =>
      have h2 : s.needs_processing = true := hnp'
      rw [hnp] at h2
      exact Bool.noConfusion h2
    | timerFire h => exact Or.inl rfl
    | wake h1 h2 =>
      have h3 : (false : Bool) = true := hnp'
      exact Bool.noConfusion h3
    | skipEmpty h1 h2 =>
      have h3 : s.needs_processing = true := hnp'
      rw [hnp] at h3
      exact Bool.noConfusion h3
    | take h1 h2 =>
      have h3 : s.needs_processing = true := hnp'
      rw [hnp] at h3
      exact Bool.noConfusion h3
    | finish hcons =>
      have h3 : s.needs_processing = true := hnp'
      rw [hnp] at h3
      exact Bool.noConfusion h3
    | resume h1 h2 =>
      have h3 : s.needs_processing = true := hnp'
      rw [hnp] at h3
      exact Bool.noConfusion h3
    | cancel =>
      have h3 : s.needs_processing = true := hnp'
      rw [hnp] at h3
      exact Bool.noConfusion h3

theorem C9_stale_timers_witness :
    sA.timers ≤ c8s2.timers ∧
    (Label.timerFire = Label.timerFire ∨
      ∃ (rid : String) (idx : Nat), Label.timerFire = Label.submitOk rid idx) :=
  ⟨C9_stale_timers.1 sA Label.cancel c8s2 Step.cancel (by decide),
   C9_stale_timers.2.2.1 c7s6 Label.timerFire c7s7 (Step.timerFire (by decide))
     rfl rfl⟩

/-- C10: admission during processing.  Because the consumer holds no lock
during the processing delay, submissions are accepted while a batch is in
flight: the capacity bound limits only the queue, and queued plus
in-flight requests can simultaneously reach
`MAX_QUEUE_SIZE + MAX_BATCH_SIZE = 5`.  The bound is proved for every
reachable state, and the reachable state `stv7` attains it: 3 queued, 2 in
flight, all 5 accepted and uncompleted, the last admission having happened
while the consumer was processing batch `[0, 1]`. -/
theorem C10_admission_during_processing :
    (∀ (s : ServerState), Reachable s →
      s.queue.length + (inflight s).length ≤ MAX_QUEUE_SIZE + MAX_BATCH_SIZE) ∧
    (Reachable stv7 ∧ stv7.queue.length = MAX_QUEUE_SIZE ∧
      (inflight stv7).length = MAX_BATCH_SIZE ∧
      stv7.consumer = ConsumerState.processing [0, 1] ∧
      (∀ r ∈ stv7.reqs, r.done = false) ∧
      addRequestLocked stv6 "E" = Except.ok (stv7, 4) ∧
      stv6.consumer = ConsumerState.processing [0, 1]) := by
  constructor
  · intro s hs
    exact Nat.add_le_add (reachable_inv hs).qlen (reachable_inv hs).blen
  · exact ⟨reach_stv7, rfl, rfl, rfl, by decide, rfl, rfl⟩

theorem C10_admission_during_processing_witness :
    stv7.queue.length + (inflight stv7).length ≤
      MAX_QUEUE_SIZE + MAX_BATCH_SIZE :=
  C10_admission_during_processing.1 stv7 reach_stv7

end BatchServer
